import Mathlib

/-!
Shallow embedding of the indicator-driven trend backtesting engine found in
`.github/workflows/backup.py` and `.github/workflows/binance_ma_crossover_notify.py`.

Modelling conventions:
* pandas/NumPy float values are modelled as `Option ℚ`: `some q` is a finite
  value, `none` is a non-finite value (NaN or plus/minus infinity), which is what
  an indicator holds before its warm-up window is full and what an unguarded
  zero-denominator division produces.  Rationals replace IEEE doubles: the
  engine only adds, subtracts, multiplies, divides and compares, so the code
  paths taken are identical (no rounding-dependent branch exists).
* Comparisons follow IEEE semantics: any comparison involving a non-finite NaN
  value is false, so `none` compares false against everything (`fLt`, `fLe`).
  Python's two-argument `min`/`max` are embedded argument-order faithfully
  (`fmin`, `fmax`), since their result depends on the order when NaN is involved.
* Dataframes enriched with indicator columns are lists of row records
  (`RowB` for backup.py, `RowN` for binance_ma_crossover_notify.py); the raw
  OHLC dataframe is a list of `Candle`.  `backtest` receives the enriched
  dataframe, exactly as in the scripts (indicators are added once, then
  `analyze_trend` / `identify_trend` read rows `iloc[-1]` / `iloc[-2]` of a
  growing prefix).
* One deliberate conflation, noted where used: an infinite (not NaN)
  intermediate float is also mapped to `none`; the only spot where an infinity
  later produces a finite value is the RSI quotient, which is embedded with its
  exact float outcome (`rsiAt`).
-/

/- Batteries marks the rational-number field operations irreducible, which
blocks `decide` on concrete runs of the engine; restore default transparency. -/
attribute [local semireducible] Rat.mul Rat.add Rat.sub Rat.inv

set_option maxRecDepth 100000

/-- A pandas float value: `some q` finite, `none` non-finite (NaN/inf). -/
abbrev F : Type := Option ℚ

/-- `LEVERAGE = 10` from the configuration block of both scripts. -/
def LEVERAGE : ℚ := 10

/-- Float `<`: true only when both operands are finite (IEEE: NaN compares false). -/
def fLt : F → F → Bool
  | some a, some b => decide (a < b)
  | _, _ => false

/-- Float `<=`: true only when both operands are finite. -/
def fLe : F → F → Bool
  | some a, some b => decide (a ≤ b)
  | _, _ => false

/-- Python builtin `min(a, b)`: returns `b` if `b < a` else `a`. -/
def fmin (a b : F) : F := if fLt b a then b else a

/-- Python builtin `max(a, b)`: returns `b` if `a < b` else `a`. -/
def fmax (a b : F) : F := if fLt a b then b else a

/-- Position direction: the strings `'uptrend'` / `'downtrend'` of the scripts. -/
inductive Dir where
  | uptrend
  | downtrend
deriving DecidableEq, Inhabited

/-- One OHLC candle; only the columns the indicator pipeline reads are kept
(`open`/`volume` are fetched but never used by the core). -/
structure Candle where
  high : ℚ
  low : ℚ
  close : ℚ
deriving DecidableEq, Inhabited

def closesOf (df : List Candle) : List ℚ := df.map Candle.close

def highsOf (df : List Candle) : List ℚ := df.map Candle.high

def lowsOf (df : List Candle) : List ℚ := df.map Candle.low

/-! Indicator pipeline, pointwise.  Each `...At` function gives the value of a
column at row index `i`, as computed by pandas over the whole input series. -/

/-- The window of a pandas `rolling(window=w)` aggregation ending at row `i`:
rows `i+1-w` to `i`. -/
def winSlice (w i : ℕ) (xs : List ℚ) : List ℚ := (xs.take (i + 1)).drop (i + 1 - w)

def listMin : List ℚ → F
  | [] => none
  | x :: xs =>
    match listMin xs with
    | none => some x
    | some m => some (min x m)

def listMax : List ℚ → F
  | [] => none
  | x :: xs =>
    match listMax xs with
    | none => some x
    | some m => some (max x m)

/-- `xs.rolling(window=w).mean()` at row `i`: NaN until `w` rows exist. -/
def rollingMeanAt (w : ℕ) (xs : List ℚ) (i : ℕ) : F :=
  if i + 1 < w then none else some ((winSlice w i xs).sum / (w : ℚ))

/-- `xs.rolling(window=w).min()` at row `i`. -/
def rollingMinAt (w : ℕ) (xs : List ℚ) (i : ℕ) : F :=
  if i + 1 < w then none else listMin (winSlice w i xs)

/-- `xs.rolling(window=w).max()` at row `i`. -/
def rollingMaxAt (w : ℕ) (xs : List ℚ) (i : ℕ) : F :=
  if i + 1 < w then none else listMax (winSlice w i xs)

/-- One step of pandas `ewm(adjust=False, ignore_na=False).mean()`: the state is
`none` before the first valid observation, otherwise `(weighted_avg, old_wt)`.
A NaN observation decays the old weight; a valid observation combines and
resets the old weight to 1 (this is the `adjust=False` branch of pandas'
exponential moving window kernel). -/
def ewmStep (a : ℚ) (s : Option (ℚ × ℚ)) (x : F) : Option (ℚ × ℚ) :=
  match s, x with
  | none, none => none
  | none, some v => some (v, 1)
  | some (m, w), none => some (m, w * (1 - a))
  | some (m, w), some v => some ((w * (1 - a) * m + a * v) / (w * (1 - a) + a), 1)

def ewmState (a : ℚ) (xs : List F) : ℕ → Option (ℚ × ℚ)
  | 0 => ewmStep a none (xs.getD 0 none)
  | i + 1 => ewmStep a (ewmState a xs i) (xs.getD (i + 1) none)

/-- `xs.ewm(alpha=a, adjust=False).mean()` at row `i`. -/
def ewmAt (a : ℚ) (xs : List F) (i : ℕ) : F := (ewmState a xs i).map Prod.fst

/-- `df['close'].ewm(span=S, adjust=False).mean()` at row `i`
(pandas turns a span into `alpha = 2/(S+1)`). -/
def emaAt (S : ℕ) (closes : List ℚ) (i : ℕ) : F :=
  ewmAt (2 / ((S : ℚ) + 1)) (closes.map some) i

/-- `df['close'].diff()` at row `i`: NaN at row 0. -/
def deltaAt (closes : List ℚ) (i : ℕ) : F :=
  if i = 0 then none else some (closes.getD i 0 - closes.getD (i - 1) 0)

/-- `delta.where(delta > 0, 0)` at row `i`.  Note that pandas replaces the NaN
at row 0 by 0 as well, because `NaN > 0` is false. -/
def gainAt (closes : List ℚ) (i : ℕ) : ℚ :=
  match deltaAt closes i with
  | some d => if 0 < d then d else 0
  | none => 0

/-- `-delta.where(delta < 0, 0)` at row `i`. -/
def lossAt (closes : List ℚ) (i : ℕ) : ℚ :=
  match deltaAt closes i with
  | some d => if d < 0 then -d else 0
  | none => 0

def gainList (closes : List ℚ) : List ℚ := (List.range closes.length).map (gainAt closes)

def lossList (closes : List ℚ) : List ℚ := (List.range closes.length).map (lossAt closes)

/-- `gain.rolling(window=p).mean()` at row `i` (from `calculate_rsi`). -/
def avgGainAt (closes : List ℚ) (p i : ℕ) : F := rollingMeanAt p (gainList closes) i

/-- `loss.rolling(window=p).mean()` at row `i` (from `calculate_rsi`). -/
def avgLossAt (closes : List ℚ) (p i : ℕ) : F := rollingMeanAt p (lossList closes) i

/-- `calculate_rsi`: `rs = avg_gain / avg_loss; rsi = 100 - 100/(1+rs)` at row `i`.
The division is NOT guarded in the source.  Embedded float outcomes:
with `avg_loss > 0` the quotient is finite; with `avg_loss = 0` and
`avg_gain` nonzero, `rs = +inf` and `rsi` evaluates to the finite float `100`;
with `avg_gain = avg_loss = 0` the quotient is `0/0 = NaN` and `rsi` is NaN. -/
def rsiAt (closes : List ℚ) (p i : ℕ) : F :=
  match avgGainAt closes p i, avgLossAt closes p i with
  | some aG, some aL =>
    if aL ≠ 0 then some (100 - 100 / (1 + aG / aL))
    else if aG ≠ 0 then some 100
    else none
  | _, _ => none

/-- `calculate_kdj`: `rsv = 100 * (close - low_min) / (high_max - low_min)` at
row `i`, with `length = L`.  The division is NOT guarded: a zero range yields
`0/0 = NaN` (or an infinity when `close` escapes the range), i.e. non-finite. -/
def rsvAt (df : List Candle) (L i : ℕ) : F :=
  match rollingMinAt L (lowsOf df) i, rollingMaxAt L (highsOf df) i with
  | some lm, some hm =>
    if hm - lm ≠ 0 then some (100 * ((closesOf df).getD i 0 - lm) / (hm - lm)) else none
  | _, _ => none

def rsvList (df : List Candle) (L : ℕ) : List F := (List.range df.length).map (rsvAt df L)

/-- `df['K'] = rsv.ewm(alpha=1/ma1, adjust=False).mean()` at row `i`. -/
def kAt (df : List Candle) (L ma1 i : ℕ) : F := ewmAt (1 / (ma1 : ℚ)) (rsvList df L) i

def kList (df : List Candle) (L ma1 : ℕ) : List F :=
  (List.range df.length).map (kAt df L ma1)

/-- `df['D'] = df['K'].ewm(alpha=1/ma2, adjust=False).mean()` at row `i`. -/
def dAt (df : List Candle) (L ma1 ma2 i : ℕ) : F :=
  ewmAt (1 / (ma2 : ℚ)) (kList df L ma1) i

/-- `df['J'] = 3 * df['K'] - 2 * df['D']` at row `i` (NaN propagates). -/
def jAt (df : List Candle) (L ma1 ma2 i : ℕ) : F :=
  match kAt df L ma1 i, dAt df L ma1 ma2 i with
  | some k, some d => some (3 * k - 2 * d)
  | _, _ => none

/-- `calculate_wr`: `wr = -100 * (highest_high - close) / (highest_high - lowest_low)`
at row `i`.  The division is NOT guarded: a zero range yields a non-finite value. -/
def wrAt (df : List Candle) (p i : ℕ) : F :=
  match rollingMaxAt p (highsOf df) i, rollingMinAt p (lowsOf df) i with
  | some hh, some ll =>
    if hh - ll ≠ 0 then some (-100 * (hh - (closesOf df).getD i 0) / (hh - ll)) else none
  | _, _ => none

/-- One row of the dataframe enriched by `add_indicators` of backup.py
(close plus the EMA/MA columns). -/
structure RowB where
  close : ℚ
  ema8 : F
  ema13 : F
  ema21 : F
  ema50 : F
  ema200 : F
  ma50 : F
  ma200 : F
deriving DecidableEq, Inhabited

/-- One row of the dataframe enriched by `add_indicators` of
binance_ma_crossover_notify.py (EMA/MA plus KDJ, RSI and Williams %R columns). -/
structure RowN where
  close : ℚ
  ema8 : F
  ema13 : F
  ema21 : F
  ema50 : F
  ema200 : F
  ma50 : F
  ma200 : F
  k : F
  d : F
  j : F
  rsi5 : F
  rsi13 : F
  rsi21 : F
  wr8 : F
  wr13 : F
  wr50 : F
  wr200 : F
deriving DecidableEq, Inhabited

/-- Row `i` produced by `add_indicators` of backup.py. -/
def indicatorRowBAt (df : List Candle) (i : ℕ) : RowB :=
  { close := (closesOf df).getD i 0
    ema8 := emaAt 8 (closesOf df) i
    ema13 := emaAt 13 (closesOf df) i
    ema21 := emaAt 21 (closesOf df) i
    ema50 := emaAt 50 (closesOf df) i
    ema200 := emaAt 200 (closesOf df) i
    ma50 := rollingMeanAt 50 (closesOf df) i
    ma200 := rollingMeanAt 200 (closesOf df) i }

/-- Row `i` produced by `add_indicators` of binance_ma_crossover_notify.py,
with the source's default parameters: `calculate_kdj(df, 5, 8, 8)`,
`calculate_rsi(df, [5, 13, 21])`, `calculate_wr(df, [8, 13, 50, 200])`. -/
def indicatorRowNAt (df : List Candle) (i : ℕ) : RowN :=
  { close := (closesOf df).getD i 0
    ema8 := emaAt 8 (closesOf df) i
    ema13 := emaAt 13 (closesOf df) i
    ema21 := emaAt 21 (closesOf df) i
    ema50 := emaAt 50 (closesOf df) i
    ema200 := emaAt 200 (closesOf df) i
    ma50 := rollingMeanAt 50 (closesOf df) i
    ma200 := rollingMeanAt 200 (closesOf df) i
    k := kAt df 5 8 i
    d := dAt df 5 8 8 i
    j := jAt df 5 8 8 i
    rsi5 := rsiAt (closesOf df) 5 i
    rsi13 := rsiAt (closesOf df) 13 i
    rsi21 := rsiAt (closesOf df) 21 i
    wr8 := wrAt df 8 i
    wr13 := wrAt df 13 i
    wr50 := wrAt df 50 i
    wr200 := wrAt df 200 i }

/-- `add_indicators` of backup.py: the enriched dataframe as a list of rows. -/
def add_indicatorsB (df : List Candle) : List RowB :=
  (List.range df.length).map (indicatorRowBAt df)

/-- `add_indicators` of binance_ma_crossover_notify.py. -/
def add_indicatorsN (df : List Candle) : List RowN :=
  (List.range df.length).map (indicatorRowNAt df)

/-! Trend classifiers. -/

def rowAtB (df : List RowB) (i : ℕ) : RowB := df.getD i default

def rowAtN (df : List RowN) (i : ℕ) : RowN := df.getD i default

/-- The uptrend condition of `analyze_trend` at one bar:
`EMA200 > close > EMA8 > EMA13 > EMA21 > EMA50 > MA50` and `close < MA200`
(Python chained comparisons, NaN compares false). -/
def upStackB (r : RowB) : Bool :=
  fLt (some r.close) r.ema200 && fLt r.ema8 (some r.close) && fLt r.ema13 r.ema8 &&
    fLt r.ema21 r.ema13 && fLt r.ema50 r.ema21 && fLt r.ma50 r.ema50 &&
    fLt (some r.close) r.ma200

/-- The downtrend condition of `analyze_trend` at one bar (all inequalities
of `upStackB` reversed). -/
def downStackB (r : RowB) : Bool :=
  fLt r.ema200 (some r.close) && fLt (some r.close) r.ema8 && fLt r.ema8 r.ema13 &&
    fLt r.ema13 r.ema21 && fLt r.ema21 r.ema50 && fLt r.ema50 r.ma50 &&
    fLt r.ma200 (some r.close)

/-- `analyze_trend` of backup.py: reads `iloc[-1]` and `iloc[-2]` of the given
prefix; `{}` is modelled as `none`, `{'start': s}` as `some s`. -/
def analyze_trend (df : List RowB) : Option Dir :=
  if df.length < 2 then none
  else
    let r1 := rowAtB df (df.length - 1)
    let r2 := rowAtB df (df.length - 2)
    if upStackB r1 && upStackB r2 then some Dir.uptrend
    else if downStackB r1 && downStackB r2 then some Dir.downtrend
    else none

/-- `min(lo, hi) <= v <= max(lo, hi)` on floats, as written in
`is_coin_eligible` and in the `wr_8_13_between` condition. -/
def betweenPair (v lo hi : F) : Bool := fLe (fmin lo hi) v && fLe v (fmax lo hi)

/-- Body of `is_coin_eligible` on the last row: at least 2 of the 5 key values
(EMA8, EMA13, EMA21, EMA50, close) lie between at least one of the pairs drawn
from (MA50, MA200, EMA200). -/
def eligibleRow (last : RowN) : Bool :=
  let keyValues : List F := [last.ema8, last.ema13, last.ema21, last.ema50, some last.close]
  let pairs : List (F × F) :=
    [(last.ma50, last.ma200), (last.ma50, last.ema200), (last.ma200, last.ema200)]
  let count :=
    (keyValues.filter fun v =>
      decide (1 ≤ (pairs.filter fun p => betweenPair v p.1 p.2).length)).length
  decide (2 ≤ count)

/-- `is_coin_eligible` of binance_ma_crossover_notify.py: reads only `iloc[-1]`.
The empty-dataframe case (in which the Python code would raise on `iloc[-1]`)
is modelled as `false`; the only caller guards `len(df) < 1` beforehand. -/
def is_coin_eligible (df : List RowN) : Bool :=
  match df.getLast? with
  | some last => eligibleRow last
  | none => false

/-- Classifier verdict of binance_ma_crossover_notify.py: `{'end': True}` or
`{'start': s}`; `None` is modelled as `none` at the call sites. -/
inductive Verdict where
  | trendEnd
  | start (s : Dir)
deriving DecidableEq

/-- `identify_trend` of binance_ma_crossover_notify.py: the eligibility gate is
checked first; then the trend-ended condition; then the KDJ, RSI and Williams
%R orderings. -/
def identify_trend (df : List RowN) : Option Verdict :=
  if df.length < 1 then none
  else
    let last := rowAtN df (df.length - 1)
    if !is_coin_eligible df then none
    else
      let kdjUp := fLt last.d last.j && fLt last.k last.d
      let kdjDown := fLt last.d last.k && fLt last.j last.d
      let rsiUp := fLt last.rsi13 last.rsi5 && fLt last.rsi21 last.rsi13
      let rsiDown := fLt last.rsi13 last.rsi21 && fLt last.rsi5 last.rsi13
      let wrUp := fLt last.wr13 last.wr8 && fLt last.wr50 last.wr13 && fLt last.wr200 last.wr50
      let wrDown := fLt last.wr50 last.wr200 && fLt last.wr13 last.wr50 && fLt last.wr8 last.wr13
      let wrBetween :=
        betweenPair last.wr8 last.wr50 last.wr200 && betweenPair last.wr13 last.wr50 last.wr200
      if wrBetween then some Verdict.trendEnd
      else if kdjUp && rsiUp && wrUp then some (Verdict.start Dir.uptrend)
      else if kdjDown && rsiDown && wrDown then some (Verdict.start Dir.downtrend)
      else none

/-! Position backtester. -/

/-- One closed trade record, as appended by `backtest`. -/
structure Trade where
  entry_index : ℕ
  exit_index : ℕ
  position : Dir
  entry_price : ℚ
  exit_price : ℚ
  profit : ℚ
deriving DecidableEq, Inhabited

/-- Backtester state: the trade log plus the three loop variables
`position`, `entry_price`, `entry_index` of `backtest`. -/
structure BTState where
  trades : List Trade
  position : Option Dir
  entry_price : ℚ
  entry_index : ℕ
deriving DecidableEq

/-- The initialisation of `backtest`: `trades = []`, `position = None`,
`entry_price = 0.0`, `entry_index = 0`. -/
def initState : BTState :=
  { trades := [], position := none, entry_price := 0, entry_index := 0 }

/-- `profit = (exit - entry) if position == 'uptrend' else (entry - exit);`
`profit *= LEVERAGE` — the profit computation repeated at every close site. -/
def tradeProfit (position : Dir) (entry_price exit_price : ℚ) : ℚ :=
  (if position = Dir.uptrend then exit_price - entry_price else entry_price - exit_price) *
    LEVERAGE

/-- The trade dict appended at every close site of `backtest`. -/
def closeTrade (s : BTState) (p : Dir) (exitIdx : ℕ) (exitPrice : ℚ) : Trade :=
  { entry_index := s.entry_index
    exit_index := exitIdx
    position := p
    entry_price := s.entry_price
    exit_price := exitPrice
    profit := tradeProfit p s.entry_price exitPrice }

def closeAtB (df : List RowB) (i : ℕ) : ℚ := (rowAtB df i).close

def closeAtN (df : List RowN) (i : ℕ) : ℚ := (rowAtN df i).close

/-- One iteration of the `for i in range(200, len(df))` loop of `backtest` in
backup.py: classify the prefix `df.iloc[:i+1]`; on a signal differing from the
current position, close (if open) at `close[i-1]` and open at `close[i]`;
on no signal, close (if open) at `close[i]`. -/
def stepB (df : List RowB) (s : BTState) (i : ℕ) : BTState :=
  match analyze_trend (df.take (i + 1)) with
  | some d =>
    if s.position = some d then s
    else
      let s1 :=
        match s.position with
        | some p => { s with trades := s.trades ++ [closeTrade s p (i - 1) (closeAtB df (i - 1))] }
        | none => s
      { s1 with position := some d, entry_price := closeAtB df i, entry_index := i }
  | none =>
    match s.position with
    | some p =>
      { s with trades := s.trades ++ [closeTrade s p i (closeAtB df i)], position := none }
    | none => s

/-- State after the first `k` iterations of the loop of backup.py's `backtest`. -/
def stateAfterB (df : List RowB) (k : ℕ) : BTState :=
  (List.range' 200 k).foldl (stepB df) initState

/-- State when the per-bar loop of backup.py's `backtest` has finished. -/
def runLoopB (df : List RowB) : BTState := stateAfterB df (df.length - 200)

/-- `backtest` of backup.py: run the loop, then force-close any open position
at the last close (`exit_index = len(df)-1`, `exit_price = close.iloc[-1]`). -/
def backtestB (df : List RowB) : List Trade :=
  match (runLoopB df).position with
  | some p =>
    (runLoopB df).trades ++
      [closeTrade (runLoopB df) p (df.length - 1) (closeAtB df (df.length - 1))]
  | none => (runLoopB df).trades

/-- One iteration of the loop of `backtest` in binance_ma_crossover_notify.py:
`None` and `{'end': True}` verdicts close (if open) at `close[i]`; a start
signal differing from the current position closes (if open) at `close[i-1]`
and opens at `close[i]`. -/
def stepN (df : List RowN) (s : BTState) (i : ℕ) : BTState :=
  match identify_trend (df.take (i + 1)) with
  | none =>
    match s.position with
    | some p =>
      { s with trades := s.trades ++ [closeTrade s p i (closeAtN df i)], position := none }
    | none => s
  | some Verdict.trendEnd =>
    match s.position with
    | some p =>
      { s with trades := s.trades ++ [closeTrade s p i (closeAtN df i)], position := none }
    | none => s
  | some (Verdict.start d) =>
    if s.position = some d then s
    else
      let s1 :=
        match s.position with
        | some p => { s with trades := s.trades ++ [closeTrade s p (i - 1) (closeAtN df (i - 1))] }
        | none => s
      { s1 with position := some d, entry_price := closeAtN df i, entry_index := i }

/-- State after the first `k` loop iterations of notify's `backtest`. -/
def stateAfterN (df : List RowN) (k : ℕ) : BTState :=
  (List.range' 200 k).foldl (stepN df) initState

/-- State when the per-bar loop of notify's `backtest` has finished. -/
def runLoopN (df : List RowN) : BTState := stateAfterN df (df.length - 200)

/-- `backtest` of binance_ma_crossover_notify.py. -/
def backtestN (df : List RowN) : List Trade :=
  match (runLoopN df).position with
  | some p =>
    (runLoopN df).trades ++
      [closeTrade (runLoopN df) p (df.length - 1) (closeAtN df (df.length - 1))]
  | none => (runLoopN df).trades

/-! Concrete data used by the witness theorems. -/

/-- A row with no defined indicators (warm-up region). -/
def junkRowB : RowB :=
  { close := 0, ema8 := none, ema13 := none, ema21 := none, ema50 := none,
    ema200 := none, ma50 := none, ma200 := none }

/-- A row satisfying the uptrend stacking of `analyze_trend`. -/
def upRowB : RowB :=
  { close := 5, ema8 := some 4, ema13 := some 3, ema21 := some 2, ema50 := some 1,
    ema200 := some 6, ma50 := some 0, ma200 := some 7 }

/-- 201 rows whose last two bars satisfy the uptrend stacking: the loop of
backup.py's `backtest` runs exactly once (at `i = 200`) and opens a Long. -/
def exDfB : List RowB := List.replicate 199 junkRowB ++ [upRowB, upRowB]

/-- The single (force-closed) trade produced by `backtestB exDfB`. -/
def exTradeB : Trade :=
  { entry_index := 200, exit_index := 200, position := Dir.uptrend,
    entry_price := 5, exit_price := 5, profit := 0 }

/-- A row with no defined indicators for the notify variant. -/
def junkRowN : RowN :=
  { close := 0, ema8 := none, ema13 := none, ema21 := none, ema50 := none,
    ema200 := none, ma50 := none, ma200 := none, k := none, d := none, j := none,
    rsi5 := none, rsi13 := none, rsi21 := none,
    wr8 := none, wr13 := none, wr50 := none, wr200 := none }

/-- A row passing the eligibility gate and all three uptrend oscillator
orderings of `identify_trend` (and not the trend-ended condition). -/
def fireRowN : RowN :=
  { close := 15, ema8 := some 12, ema13 := some 14, ema21 := some 16, ema50 := some 18,
    ema200 := some 30, ma50 := some 10, ma200 := some 20,
    k := some 1, d := some 2, j := some 3,
    rsi5 := some 70, rsi13 := some 60, rsi21 := some 50,
    wr8 := some (-10), wr13 := some (-20), wr50 := some (-30), wr200 := some (-40) }

/-- 201 rows whose last bar fires an uptrend start in `identify_trend`. -/
def exDfN : List RowN := List.replicate 200 junkRowN ++ [fireRowN]

/-- The single (force-closed) trade produced by `backtestN exDfN`. -/
def exTradeN : Trade :=
  { entry_index := 200, exit_index := 200, position := Dir.uptrend,
    entry_price := 15, exit_price := 15, profit := 0 }

/-- A series at exactly the warm-up length (200 bars): the loop never runs. -/
def shortDfB : List RowB := List.replicate 200 junkRowB

/-- A short series for the notify variant. -/
def shortDfN : List RowN := List.replicate 3 junkRowN

/-- Alternating closes: every 5-bar window contains both a gain and a loss. -/
def zigzagCloses : List ℚ := [10, 9, 10, 9, 10, 9]

/-- Eight constant candles: zero high-low range and zero gains/losses
everywhere — the degenerate denominators of RSI, KDJ and Williams %R. -/
def constCandles : List Candle := List.replicate 8 { high := 100, low := 100, close := 100 }

/-- Strictly rising closes: zero average loss with positive average gain. -/
def risingCloses : List ℚ := [1, 2, 3, 4, 5, 6]

/-- A base series for the causality witness. -/
def xsW : List Candle :=
  [{ high := 10, low := 5, close := 7 }, { high := 12, low := 6, close := 9 },
   { high := 11, low := 7, close := 8 }, { high := 13, low := 6, close := 10 },
   { high := 12, low := 8, close := 9 }, { high := 14, low := 7, close := 12 }]

/-- Future bars appended to `xsW` with extreme values. -/
def ysW : List Candle :=
  [{ high := 20, low := 1, close := 2 }, { high := 30, low := 2, close := 25 }]

/-! Specification-side predicates. -/

/-- Modelled from the spec sentence for C6: the uptrend stacking
`EMA200 > close > EMA8 > EMA13 > EMA21 > EMA50 > MA50` and `close < MA200`
"holding" at a bar, read as: all seven indicator values are defined and the
inequalities are true. -/
def SpecStackUp (r : RowB) : Prop :=
  ∃ a b c d e m50 m200 : ℚ,
    r.ema8 = some a ∧ r.ema13 = some b ∧ r.ema21 = some c ∧ r.ema50 = some d ∧
    r.ema200 = some e ∧ r.ma50 = some m50 ∧ r.ma200 = some m200 ∧
    e > r.close ∧ r.close > a ∧ a > b ∧ b > c ∧ c > d ∧ d > m50 ∧ r.close < m200

/-- The fully mirrored stacking for the downtrend verdict. -/
def SpecStackDown (r : RowB) : Prop :=
  ∃ a b c d e m50 m200 : ℚ,
    r.ema8 = some a ∧ r.ema13 = some b ∧ r.ema21 = some c ∧ r.ema50 = some d ∧
    r.ema200 = some e ∧ r.ma50 = some m50 ∧ r.ma200 = some m200 ∧
    e < r.close ∧ r.close < a ∧ a < b ∧ b < c ∧ c < d ∧ d < m50 ∧ r.close > m200

/-! Backtester invariants. -/

/-- The profit equation every appended trade satisfies (claim C1). -/
def profitEq (t : Trade) : Prop :=
  t.profit =
    (if t.position = Dir.uptrend then t.exit_price - t.entry_price
     else t.entry_price - t.exit_price) * LEVERAGE

/-- A well-formed trade: it closes no earlier than it opens, and its profit
obeys the leverage formula. -/
def tradeOK (t : Trade) : Prop := t.entry_index ≤ t.exit_index ∧ profitEq t

/-- A well-formed trade log: every trade is well formed and consecutive trades
are strictly ordered (`exit_index` before the next `entry_index`). -/
def logOK (ts : List Trade) : Prop :=
  (∀ t ∈ ts, tradeOK t) ∧ List.Chain' (fun a b => a.exit_index < b.entry_index) ts

/-- All exits in the log lie strictly below `n`. -/
def exitsBelow (ts : List Trade) (n : ℕ) : Prop := ∀ t ∈ ts, t.exit_index < n

/-- Loop invariant of both `backtest` variants, where `i` is the next bar to be
processed: the log is well formed; if flat, all exits lie before `i`; if a
position is open, it was opened before `i` and after every logged exit. -/
def LoopInv (s : BTState) (i : ℕ) : Prop :=
  logOK s.trades ∧
    ((s.position = none ∧ exitsBelow s.trades i) ∨
      (s.position ≠ none ∧ s.entry_index < i ∧ exitsBelow s.trades s.entry_index))

/-! Helper lemmas: trade-log well-formedness. -/

theorem logOK_nil : logOK [] := ⟨by simp, List.chain'_nil⟩

theorem exitsBelow_nil (n : ℕ) : exitsBelow [] n := by
  intro t ht
  simp at ht

theorem exitsBelow_mono {ts : List Trade} {n m : ℕ} (h : exitsBelow ts n) (hnm : n ≤ m) :
    exitsBelow ts m := fun t ht => lt_of_lt_of_le (h t ht) hnm

theorem logOK_append {ts : List Trade} {t : Trade} (h : logOK ts) (ht : tradeOK t)
    (hb : exitsBelow ts t.entry_index) : logOK (ts ++ [t]) := by
  constructor
  · intro u hu
    rcases List.mem_append.1 hu with hu | hu
    · exact h.1 u hu
    · rw [List.mem_singleton] at hu
      subst hu
      exact ht
  · rw [List.chain'_append]
    refine ⟨h.2, List.chain'_singleton t, ?_⟩
    intro x hx y hy
    simp only [List.head?_cons, Option.mem_def, Option.some.injEq] at hy
    subst hy
    exact hb x (List.mem_of_mem_getLast? hx)

theorem exitsBelow_append {ts : List Trade} {t : Trade} {n : ℕ} (h : exitsBelow ts n)
    (ht : t.exit_index < n) : exitsBelow (ts ++ [t]) n := by
  intro u hu
  rcases List.mem_append.1 hu with hu | hu
  · exact h u hu
  · rw [List.mem_singleton] at hu
    subst hu
    exact ht

theorem closeTrade_profitEq (s : BTState) (p : Dir) (e : ℕ) (c : ℚ) :
    profitEq (closeTrade s p e c) := by
  simp [closeTrade, profitEq, tradeProfit]

/-! Step-characterisation lemmas for the two backtest loops. -/

theorem stepB_flat_none {df : List RowB} {s : BTState} {i : ℕ}
    (htr : analyze_trend (df.take (i + 1)) = none) (hp : s.position = none) :
    stepB df s i = s := by
  simp [stepB, htr, hp]

theorem stepB_open_none {df : List RowB} {s : BTState} {i : ℕ} {p : Dir}
    (htr : analyze_trend (df.take (i + 1)) = none) (hp : s.position = some p) :
    stepB df s i =
      { s with trades := s.trades ++ [closeTrade s p i (closeAtB df i)], position := none } := by
  simp [stepB, htr, hp]

theorem stepB_same_dir {df : List RowB} {s : BTState} {i : ℕ} {d : Dir}
    (htr : analyze_trend (df.take (i + 1)) = some d) (hp : s.position = some d) :
    stepB df s i = s := by
  simp [stepB, htr, hp]

theorem stepB_enter {df : List RowB} {s : BTState} {i : ℕ} {d : Dir}
    (htr : analyze_trend (df.take (i + 1)) = some d) (hp : s.position = none) :
    stepB df s i =
      { s with position := some d, entry_price := closeAtB df i, entry_index := i } := by
  simp [stepB, htr, hp]

theorem stepB_flip {df : List RowB} {s : BTState} {i : ℕ} {d p : Dir}
    (htr : analyze_trend (df.take (i + 1)) = some d) (hp : s.position = some p) (hne : p ≠ d) :
    stepB df s i =
      { s with trades := s.trades ++ [closeTrade s p (i - 1) (closeAtB df (i - 1))],
               position := some d, entry_price := closeAtB df i, entry_index := i } := by
  simp [stepB, htr, hp, hne]

theorem stepN_flat_none {df : List RowN} {s : BTState} {i : ℕ}
    (htr : identify_trend (df.take (i + 1)) = none) (hp : s.position = none) :
    stepN df s i = s := by
  simp [stepN, htr, hp]

theorem stepN_open_none {df : List RowN} {s : BTState} {i : ℕ} {p : Dir}
    (htr : identify_trend (df.take (i + 1)) = none) (hp : s.position = some p) :
    stepN df s i =
      { s with trades := s.trades ++ [closeTrade s p i (closeAtN df i)], position := none } := by
  simp [stepN, htr, hp]

theorem stepN_flat_end {df : List RowN} {s : BTState} {i : ℕ}
    (htr : identify_trend (df.take (i + 1)) = some Verdict.trendEnd) (hp : s.position = none) :
    stepN df s i = s := by
  simp [stepN, htr, hp]

theorem stepN_open_end {df : List RowN} {s : BTState} {i : ℕ} {p : Dir}
    (htr : identify_trend (df.take (i + 1)) = some Verdict.trendEnd) (hp : s.position = some p) :
    stepN df s i =
      { s with trades := s.trades ++ [closeTrade s p i (closeAtN df i)], position := none } := by
  simp [stepN, htr, hp]

theorem stepN_same_dir {df : List RowN} {s : BTState} {i : ℕ} {d : Dir}
    (htr : identify_trend (df.take (i + 1)) = some (Verdict.start d)) (hp : s.position = some d) :
    stepN df s i = s := by
  simp [stepN, htr, hp]

theorem stepN_enter {df : List RowN} {s : BTState} {i : ℕ} {d : Dir}
    (htr : identify_trend (df.take (i + 1)) = some (Verdict.start d)) (hp : s.position = none) :
    stepN df s i =
      { s with position := some d, entry_price := closeAtN df i, entry_index := i } := by
  simp [stepN, htr, hp]

theorem stepN_flip {df : List RowN} {s : BTState} {i : ℕ} {d p : Dir}
    (htr : identify_trend (df.take (i + 1)) = some (Verdict.start d)) (hp : s.position = some p)
    (hne : p ≠ d) :
    stepN df s i =
      { s with trades := s.trades ++ [closeTrade s p (i - 1) (closeAtN df (i - 1))],
               position := some d, entry_price := closeAtN df i, entry_index := i } := by
  simp [stepN, htr, hp, hne]

/-! Loop-invariant preservation. -/

theorem stepB_inv (df : List RowB) (s : BTState) (i : ℕ) (h : LoopInv s i) :
    LoopInv (stepB df s i) (i + 1) := by
  obtain ⟨hlog, hcase⟩ := h
  cases htr : analyze_trend (df.take (i + 1)) with
  | none =>
    cases hp : s.position with
    | none =>
      rw [stepB_flat_none htr hp]
      rcases hcase with ⟨-, hex⟩ | ⟨hne, -, -⟩
      · exact ⟨hlog, Or.inl ⟨hp, exitsBelow_mono hex (Nat.le_succ i)⟩⟩
      · exact absurd hp hne
    | some p =>
      rw [stepB_open_none htr hp]
      rcases hcase with ⟨hn, -⟩ | ⟨-, hlt, hex⟩
      · rw [hp] at hn
        cases hn
      · refine ⟨logOK_append hlog ⟨?_, closeTrade_profitEq s p i (closeAtB df i)⟩ hex,
          Or.inl ⟨rfl, ?_⟩⟩
        · show s.entry_index ≤ i
          omega
        · show exitsBelow (s.trades ++ [closeTrade s p i (closeAtB df i)]) (i + 1)
          exact exitsBelow_append (exitsBelow_mono hex (by omega)) (Nat.lt_succ_self i)
  | some d =>
    by_cases hsame : s.position = some d
    · rw [stepB_same_dir htr hsame]
      rcases hcase with ⟨hn, -⟩ | ⟨hne, hlt, hex⟩
      · rw [hsame] at hn
        cases hn
      · exact ⟨hlog, Or.inr ⟨hne, Nat.lt_succ_of_lt hlt, hex⟩⟩
    · cases hp : s.position with
      | none =>
        rw [stepB_enter htr hp]
        rcases hcase with ⟨-, hex⟩ | ⟨hne, -, -⟩
        · exact ⟨hlog, Or.inr ⟨Option.some_ne_none d, Nat.lt_succ_self i, hex⟩⟩
        · exact absurd hp hne
      | some p =>
        have hpd : p ≠ d := by
          intro he
          rw [he] at hp
          exact hsame hp
        rw [stepB_flip htr hp hpd]
        rcases hcase with ⟨hn, -⟩ | ⟨-, hlt, hex⟩
        · rw [hp] at hn
          cases hn
        · refine ⟨logOK_append hlog
            ⟨?_, closeTrade_profitEq s p (i - 1) (closeAtB df (i - 1))⟩ hex,
            Or.inr ⟨Option.some_ne_none d, Nat.lt_succ_self i, ?_⟩⟩
          · show s.entry_index ≤ i - 1
            omega
          · show exitsBelow (s.trades ++ [closeTrade s p (i - 1) (closeAtB df (i - 1))]) i
            exact exitsBelow_append (exitsBelow_mono hex (Nat.le_of_lt hlt))
              (show i - 1 < i by omega)

theorem stepN_inv (df : List RowN) (s : BTState) (i : ℕ) (h : LoopInv s i) :
    LoopInv (stepN df s i) (i + 1) := by
  obtain ⟨hlog, hcase⟩ := h
  cases htr : identify_trend (df.take (i + 1)) with
  | none =>
    cases hp : s.position with
    | none =>
      rw [stepN_flat_none htr hp]
      rcases hcase with ⟨-, hex⟩ | ⟨hne, -, -⟩
      · exact ⟨hlog, Or.inl ⟨hp, exitsBelow_mono hex (Nat.le_succ i)⟩⟩
      · exact absurd hp hne
    | some p =>
      rw [stepN_open_none htr hp]
      rcases hcase with ⟨hn, -⟩ | ⟨-, hlt, hex⟩
      · rw [hp] at hn
        cases hn
      · refine ⟨logOK_append hlog ⟨?_, closeTrade_profitEq s p i (closeAtN df i)⟩ hex,
          Or.inl ⟨rfl, ?_⟩⟩
        · show s.entry_index ≤ i
          omega
        · show exitsBelow (s.trades ++ [closeTrade s p i (closeAtN df i)]) (i + 1)
          exact exitsBelow_append (exitsBelow_mono hex (by omega)) (Nat.lt_succ_self i)
  | some v =>
    cases v with
    | trendEnd =>
      cases hp : s.position with
      | none =>
        rw [stepN_flat_end htr hp]
        rcases hcase with ⟨-, hex⟩ | ⟨hne, -, -⟩
        · exact ⟨hlog, Or.inl ⟨hp, exitsBelow_mono hex (Nat.le_succ i)⟩⟩
        · exact absurd hp hne
      | some p =>
        rw [stepN_open_end htr hp]
        rcases hcase with ⟨hn, -⟩ | ⟨-, hlt, hex⟩
        · rw [hp] at hn
          cases hn
        · refine ⟨logOK_append hlog ⟨?_, closeTrade_profitEq s p i (closeAtN df i)⟩ hex,
            Or.inl ⟨rfl, ?_⟩⟩
          · show s.entry_index ≤ i
            omega
          · show exitsBelow (s.trades ++ [closeTrade s p i (closeAtN df i)]) (i + 1)
            exact exitsBelow_append (exitsBelow_mono hex (by omega)) (Nat.lt_succ_self i)
    | start d =>
      by_cases hsame : s.position = some d
      · rw [stepN_same_dir htr hsame]
        rcases hcase with ⟨hn, -⟩ | ⟨hne, hlt, hex⟩
        · rw [hsame] at hn
          cases hn
        · exact ⟨hlog, Or.inr ⟨hne, Nat.lt_succ_of_lt hlt, hex⟩⟩
      · cases hp : s.position with
        | none =>
          rw [stepN_enter htr hp]
          rcases hcase with ⟨-, hex⟩ | ⟨hne, -, -⟩
          · exact ⟨hlog, Or.inr ⟨Option.some_ne_none d, Nat.lt_succ_self i, hex⟩⟩
          · exact absurd hp hne
        | some p =>
          have hpd : p ≠ d := by
            intro he
            rw [he] at hp
            exact hsame hp
          rw [stepN_flip htr hp hpd]
          rcases hcase with ⟨hn, -⟩ | ⟨-, hlt, hex⟩
          · rw [hp] at hn
            cases hn
          · refine ⟨logOK_append hlog
              ⟨?_, closeTrade_profitEq s p (i - 1) (closeAtN df (i - 1))⟩ hex,
              Or.inr ⟨Option.some_ne_none d, Nat.lt_succ_self i, ?_⟩⟩
            · show s.entry_index ≤ i - 1
              omega
            · show exitsBelow (s.trades ++ [closeTrade s p (i - 1) (closeAtN df (i - 1))]) i
              exact exitsBelow_append (exitsBelow_mono hex (Nat.le_of_lt hlt))
                (show i - 1 < i by omega)

theorem loopInv_init (n : ℕ) : LoopInv initState n :=
  ⟨logOK_nil, Or.inl ⟨rfl, exitsBelow_nil n⟩⟩

theorem foldl_loopInv (step : BTState → ℕ → BTState)
    (hstep : ∀ s i, LoopInv s i → LoopInv (step s i) (i + 1)) :
    ∀ (k a : ℕ) (s : BTState),
      LoopInv s a → LoopInv ((List.range' a k).foldl step s) (a + k) := by
  intro k
  induction k with
  | zero =>
    intro a s h
    simpa using h
  | succ n ih =>
    intro a s h
    rw [List.range'_succ]
    have h2 := ih (a + 1) (step s a) (hstep s a h)
    have he : a + 1 + n = a + (n + 1) := by omega
    rw [he] at h2
    simpa using h2

theorem stateAfterB_inv (df : List RowB) (k : ℕ) : LoopInv (stateAfterB df k) (200 + k) :=
  foldl_loopInv (stepB df) (stepB_inv df) k 200 initState (loopInv_init 200)

theorem stateAfterN_inv (df : List RowN) (k : ℕ) : LoopInv (stateAfterN df k) (200 + k) :=
  foldl_loopInv (stepN df) (stepN_inv df) k 200 initState (loopInv_init 200)

theorem runLoopB_inv (df : List RowB) : LoopInv (runLoopB df) (200 + (df.length - 200)) :=
  stateAfterB_inv df (df.length - 200)

theorem runLoopN_inv (df : List RowN) : LoopInv (runLoopN df) (200 + (df.length - 200)) :=
  stateAfterN_inv df (df.length - 200)

theorem runLoopB_short (df : List RowB) (h : df.length ≤ 200) : runLoopB df = initState := by
  unfold runLoopB stateAfterB
  rw [Nat.sub_eq_zero_of_le h]
  rfl

theorem runLoopN_short (df : List RowN) (h : df.length ≤ 200) : runLoopN df = initState := by
  unfold runLoopN stateAfterN
  rw [Nat.sub_eq_zero_of_le h]
  rfl

theorem runLoopB_open_length (df : List RowB) (h : (runLoopB df).position ≠ none) :
    200 < df.length := by
  by_contra hc
  push_neg at hc
  rw [runLoopB_short df hc] at h
  exact h rfl

theorem runLoopN_open_length (df : List RowN) (h : (runLoopN df).position ≠ none) :
    200 < df.length := by
  by_contra hc
  push_neg at hc
  rw [runLoopN_short df hc] at h
  exact h rfl

theorem backtestB_logOK (df : List RowB) : logOK (backtestB df) := by
  have hinv := runLoopB_inv df
  cases hp : (runLoopB df).position with
  | none =>
    have he : backtestB df = (runLoopB df).trades := by
      unfold backtestB
      rw [hp]
    rw [he]
    exact hinv.1
  | some p =>
    have hlen : 200 < df.length := runLoopB_open_length df (by rw [hp]; simp)
    have hN : 200 + (df.length - 200) = df.length := by omega
    rw [hN] at hinv
    obtain ⟨hlog, hcase⟩ := hinv
    rcases hcase with ⟨hn, -⟩ | ⟨-, hlt, hex⟩
    · rw [hp] at hn
      cases hn
    · have he : backtestB df = (runLoopB df).trades ++
          [closeTrade (runLoopB df) p (df.length - 1) (closeAtB df (df.length - 1))] := by
        unfold backtestB
        rw [hp]
      rw [he]
      refine logOK_append hlog ⟨?_, closeTrade_profitEq _ p _ _⟩ hex
      show (runLoopB df).entry_index ≤ df.length - 1
      omega

theorem backtestN_logOK (df : List RowN) : logOK (backtestN df) := by
  have hinv := runLoopN_inv df
  cases hp : (runLoopN df).position with
  | none =>
    have he : backtestN df = (runLoopN df).trades := by
      unfold backtestN
      rw [hp]
    rw [he]
    exact hinv.1
  | some p =>
    have hlen : 200 < df.length := runLoopN_open_length df (by rw [hp]; simp)
    have hN : 200 + (df.length - 200) = df.length := by omega
    rw [hN] at hinv
    obtain ⟨hlog, hcase⟩ := hinv
    rcases hcase with ⟨hn, -⟩ | ⟨-, hlt, hex⟩
    · rw [hp] at hn
      cases hn
    · have he : backtestN df = (runLoopN df).trades ++
          [closeTrade (runLoopN df) p (df.length - 1) (closeAtN df (df.length - 1))] := by
        unfold backtestN
        rw [hp]
      rw [he]
      refine logOK_append hlog ⟨?_, closeTrade_profitEq _ p _ _⟩ hex
      show (runLoopN df).entry_index ≤ df.length - 1
      omega

theorem chain_le_of_logOK (ts : List Trade) :
    logOK ts →
      List.Chain' (fun a b => a.entry_index ≤ b.entry_index ∧ a.exit_index ≤ b.exit_index) ts := by
  induction ts with
  | nil =>
    intro _
    exact List.chain'_nil
  | cons a l ih =>
    intro h
    obtain ⟨hok, hchain⟩ := h
    rw [List.chain'_cons'] at hchain
    rw [List.chain'_cons']
    refine ⟨?_, ih ⟨fun t ht => hok t (List.mem_cons_of_mem a ht), hchain.2⟩⟩
    intro y hy
    have h1 := hchain.1 y hy
    obtain ⟨ha1, -⟩ := hok a (List.mem_cons_self a l)
    obtain ⟨hy1, -⟩ := hok y (List.mem_cons_of_mem a (List.mem_of_mem_head? hy))
    exact ⟨by omega, by omega⟩

/-! Claim theorems. -/

/-- C1: for every trade appended by either `backtest`, the recorded profit
equals `(exit_price - entry_price) * leverage` for a Long (`'uptrend'`) and
`(entry_price - exit_price) * leverage` for a Short (`'downtrend'`); in
particular with leverage 10 a Long opened at 100 and closed at 101 reports
profit 10 and a Short opened at 100 and closed at 101 reports profit -10. -/
theorem backtest_profit_formula (dfB : List RowB) (dfN : List RowN) (tB tN : Trade)
    (hB : tB ∈ backtestB dfB) (hN : tN ∈ backtestN dfN) :
    (tB.profit =
      (if tB.position = Dir.uptrend then tB.exit_price - tB.entry_price
       else tB.entry_price - tB.exit_price) * LEVERAGE) ∧
    (tN.profit =
      (if tN.position = Dir.uptrend then tN.exit_price - tN.entry_price
       else tN.entry_price - tN.exit_price) * LEVERAGE) ∧
    (tB.position = Dir.uptrend → tB.entry_price = 100 → tB.exit_price = 101 →
      tB.profit = 10) ∧
    (tB.position = Dir.downtrend → tB.entry_price = 100 → tB.exit_price = 101 →
      tB.profit = -10) := by
  have h1 := ((backtestB_logOK dfB).1 tB hB).2
  have h2 := ((backtestN_logOK dfN).1 tN hN).2
  unfold profitEq at h1 h2
  refine ⟨h1, h2, ?_, ?_⟩
  · intro hpos he hx
    rw [h1, hpos, he, hx]
    norm_num [LEVERAGE]
  · intro hpos he hx
    rw [h1, hpos, he, hx]
    rw [if_neg (by decide : ¬Dir.downtrend = Dir.uptrend)]
    norm_num [LEVERAGE]

/-- Witness for C1: the concrete trades of two concrete runs satisfy the
profit formula. -/
theorem backtest_profit_formula_witness :
    exTradeB ∈ backtestB exDfB ∧ exTradeN ∈ backtestN exDfN ∧
      exTradeB.profit =
        (if exTradeB.position = Dir.uptrend then exTradeB.exit_price - exTradeB.entry_price
         else exTradeB.entry_price - exTradeB.exit_price) * LEVERAGE :=
  ⟨by decide, by decide,
    (backtest_profit_formula exDfB exDfN exTradeB exTradeN (by decide) (by decide)).1⟩

/-- C2: when a position is still open after the per-bar loop, both `backtest`
variants unconditionally append exactly one final trade, closing at the last
index of the series with the last close price, whatever the classifier said
at that index. -/
theorem backtest_forced_final_close (dfB : List RowB) (dfN : List RowN)
    (hB : (runLoopB dfB).position ≠ none) (hN : (runLoopN dfN).position ≠ none) :
    (∃ t : Trade, backtestB dfB = (runLoopB dfB).trades ++ [t] ∧
      t.exit_index = dfB.length - 1 ∧ t.exit_price = closeAtB dfB (dfB.length - 1)) ∧
    (∃ t : Trade, backtestN dfN = (runLoopN dfN).trades ++ [t] ∧
      t.exit_index = dfN.length - 1 ∧ t.exit_price = closeAtN dfN (dfN.length - 1)) := by
  constructor
  · cases hp : (runLoopB dfB).position with
    | none => exact absurd hp hB
    | some p =>
      refine ⟨closeTrade (runLoopB dfB) p (dfB.length - 1) (closeAtB dfB (dfB.length - 1)),
        ?_, rfl, rfl⟩
      unfold backtestB
      rw [hp]
  · cases hp : (runLoopN dfN).position with
    | none => exact absurd hp hN
    | some p =>
      refine ⟨closeTrade (runLoopN dfN) p (dfN.length - 1) (closeAtN dfN (dfN.length - 1)),
        ?_, rfl, rfl⟩
      unfold backtestN
      rw [hp]

/-- Witness for C2: a concrete run that ends with an open position gets the
forced final close. -/
theorem backtest_forced_final_close_witness :
    (runLoopB exDfB).position ≠ none ∧
      (∃ t : Trade, backtestB exDfB = (runLoopB exDfB).trades ++ [t] ∧
        t.exit_index = exDfB.length - 1 ∧
        t.exit_price = closeAtB exDfB (exDfB.length - 1)) :=
  ⟨by decide, (backtest_forced_final_close exDfB exDfN (by decide) (by decide)).1⟩

/-- C3: at every point of either loop the state holds at most one open
position (`None` or exactly one direction), every logged trade satisfies
`exit_index ≥ entry_index`, and both indices are non-decreasing along the
log in append order. -/
theorem backtest_position_and_log_monotone (dfB : List RowB) (dfN : List RowN) :
    (∀ k : ℕ, (stateAfterB dfB k).position = none ∨
      ∃ d : Dir, (stateAfterB dfB k).position = some d) ∧
    (∀ k : ℕ, (stateAfterN dfN k).position = none ∨
      ∃ d : Dir, (stateAfterN dfN k).position = some d) ∧
    (∀ t ∈ backtestB dfB, t.entry_index ≤ t.exit_index) ∧
    (∀ t ∈ backtestN dfN, t.entry_index ≤ t.exit_index) ∧
    List.Chain' (fun a b => a.entry_index ≤ b.entry_index ∧ a.exit_index ≤ b.exit_index)
      (backtestB dfB) ∧
    List.Chain' (fun a b => a.entry_index ≤ b.entry_index ∧ a.exit_index ≤ b.exit_index)
      (backtestN dfN) := by
  refine ⟨?_, ?_, ?_, ?_, ?_, ?_⟩
  · intro k
    cases h : (stateAfterB dfB k).position with
    | none => exact Or.inl rfl
    | some d => exact Or.inr ⟨d, rfl⟩
  · intro k
    cases h : (stateAfterN dfN k).position with
    | none => exact Or.inl rfl
    | some d => exact Or.inr ⟨d, rfl⟩
  · exact fun t ht => ((backtestB_logOK dfB).1 t ht).1
  · exact fun t ht => ((backtestN_logOK dfN).1 t ht).1
  · exact chain_le_of_logOK _ (backtestB_logOK dfB)
  · exact chain_le_of_logOK _ (backtestN_logOK dfN)

/-- Witness for C3 at a concrete run containing a trade. -/
theorem backtest_position_and_log_monotone_witness :
    exTradeB ∈ backtestB exDfB ∧ exTradeB.entry_index ≤ exTradeB.exit_index :=
  ⟨by decide,
    (backtest_position_and_log_monotone exDfB exDfN).2.2.1 exTradeB (by decide)⟩

/-- C5: a series no longer than the 200-bar warm-up is never simulated: the
per-bar loop body does not run and the returned trade log is empty, in both
variants. -/
theorem backtest_short_series_empty (dfB : List RowB) (dfN : List RowN)
    (hB : dfB.length ≤ 200) (hN : dfN.length ≤ 200) :
    backtestB dfB = [] ∧ backtestN dfN = [] := by
  constructor
  · unfold backtestB
    rw [runLoopB_short dfB hB]
    rfl
  · unfold backtestN
    rw [runLoopN_short dfN hN]
    rfl

/-- Witness for C5 on concrete series of lengths 200 and 3. -/
theorem backtest_short_series_empty_witness :
    shortDfB.length ≤ 200 ∧ shortDfN.length ≤ 200 ∧ backtestB shortDfB = [] :=
  ⟨by decide, by decide,
    (backtest_short_series_empty shortDfB shortDfN (by decide) (by decide)).1⟩

/-- C10: in both realized backtest variants, consecutive trades never
overlap: the `exit_index` of each trade is strictly below the `entry_index`
of the next trade in append order. -/
theorem backtest_trades_strictly_ordered (dfB : List RowB) (dfN : List RowN) :
    List.Chain' (fun a b => a.exit_index < b.entry_index) (backtestB dfB) ∧
    List.Chain' (fun a b => a.exit_index < b.entry_index) (backtestN dfN) :=
  ⟨(backtestB_logOK dfB).2, (backtestN_logOK dfN).2⟩

/-- C8: whenever the price-position prerequisite gate fails on a (nonempty)
prefix, `identify_trend` returns None, regardless of the KDJ, RSI and
Williams %R states at that bar. -/
theorem identify_trend_gate_none (df : List RowN) (h1 : df ≠ [])
    (h2 : is_coin_eligible df = false) : identify_trend df = none := by
  have hlen : ¬df.length < 1 := by
    cases df with
    | nil => exact absurd rfl h1
    | cons a l => simp
  unfold identify_trend
  rw [if_neg hlen, h2]
  rfl

/-- Witness for C8: a one-row prefix whose indicators are all undefined fails
the gate and classifies to None. -/
theorem identify_trend_gate_none_witness :
    ([junkRowN] ≠ ([] : List RowN)) ∧ is_coin_eligible [junkRowN] = false ∧
      identify_trend [junkRowN] = none :=
  ⟨by decide, by decide, identify_trend_gate_none [junkRowN] (by decide) (by decide)⟩

theorem fLt_dest {a b : F} (h : fLt a b = true) :
    ∃ x y, a = some x ∧ b = some y ∧ x < y := by
  cases a with
  | none => simp [fLt] at h
  | some x =>
    cases b with
    | none => simp [fLt] at h
    | some y =>
      refine ⟨x, y, rfl, rfl, ?_⟩
      simpa [fLt] using h

theorem upStackB_iff (r : RowB) : upStackB r = true ↔ SpecStackUp r := by
  obtain ⟨c, e8, e13, e21, e50, e200, m50, m200⟩ := r
  cases e8 <;> cases e13 <;> cases e21 <;> cases e50 <;> cases e200 <;>
    cases m50 <;> cases m200 <;>
    simp [upStackB, SpecStackUp, fLt, and_assoc]

theorem downStackB_iff (r : RowB) : downStackB r = true ↔ SpecStackDown r := by
  obtain ⟨c, e8, e13, e21, e50, e200, m50, m200⟩ := r
  cases e8 <;> cases e13 <;> cases e21 <;> cases e50 <;> cases e200 <;>
    cases m50 <;> cases m200 <;>
    simp [downStackB, SpecStackDown, fLt, and_assoc]

theorem specStack_exclusive (r : RowB) (hu : SpecStackUp r) (hd : SpecStackDown r) :
    False := by
  obtain ⟨a, b, c, d, e, m1, m2, -, -, -, -, h200, -, -, i1, -, -, -, -, -, -⟩ := hu
  obtain ⟨a2, b2, c2, d2, e2, m12, m22, -, -, -, -, g200, -, -, j1, -, -, -, -, -, -⟩ := hd
  rw [h200] at g200
  injection g200 with hee
  subst hee
  exact absurd i1 (not_lt_of_lt j1)

/-- C6: `analyze_trend` returns the Uptrend verdict if and only if the
stacking `EMA200 > close > EMA8 > EMA13 > EMA21 > EMA50 > MA50` together with
`close < MA200` holds (with all values defined) at both the current and the
immediately preceding bar; the Downtrend verdict if and only if the fully
mirrored inequalities hold at both bars; and no verdict otherwise. -/
theorem analyze_trend_stacking_iff (df : List RowB) :
    (analyze_trend df = some Dir.uptrend ↔
      2 ≤ df.length ∧ SpecStackUp (rowAtB df (df.length - 1)) ∧
        SpecStackUp (rowAtB df (df.length - 2))) ∧
    (analyze_trend df = some Dir.downtrend ↔
      2 ≤ df.length ∧ SpecStackDown (rowAtB df (df.length - 1)) ∧
        SpecStackDown (rowAtB df (df.length - 2))) ∧
    (analyze_trend df = none ↔
      ¬(2 ≤ df.length ∧ SpecStackUp (rowAtB df (df.length - 1)) ∧
          SpecStackUp (rowAtB df (df.length - 2))) ∧
      ¬(2 ≤ df.length ∧ SpecStackDown (rowAtB df (df.length - 1)) ∧
          SpecStackDown (rowAtB df (df.length - 2)))) := by
  by_cases hlen : df.length < 2
  · have ha : analyze_trend df = none := by
      unfold analyze_trend
      rw [if_pos hlen]
    have hnot : ¬2 ≤ df.length := by omega
    refine ⟨?_, ?_, ?_⟩ <;> simp [ha, hnot]
  · have hlen2 : 2 ≤ df.length := by omega
    have hupIff : (upStackB (rowAtB df (df.length - 1)) &&
        upStackB (rowAtB df (df.length - 2))) = true ↔
        SpecStackUp (rowAtB df (df.length - 1)) ∧
          SpecStackUp (rowAtB df (df.length - 2)) := by
      rw [Bool.and_eq_true, upStackB_iff, upStackB_iff]
    have hdownIff : (downStackB (rowAtB df (df.length - 1)) &&
        downStackB (rowAtB df (df.length - 2))) = true ↔
        SpecStackDown (rowAtB df (df.length - 1)) ∧
          SpecStackDown (rowAtB df (df.length - 2)) := by
      rw [Bool.and_eq_true, downStackB_iff, downStackB_iff]
    have ha : analyze_trend df =
        (if upStackB (rowAtB df (df.length - 1)) && upStackB (rowAtB df (df.length - 2)) then
          some Dir.uptrend
         else if downStackB (rowAtB df (df.length - 1)) &&
             downStackB (rowAtB df (df.length - 2)) then some Dir.downtrend
         else none) := by
      unfold analyze_trend
      rw [if_neg hlen]
    by_cases hb1 : (upStackB (rowAtB df (df.length - 1)) &&
        upStackB (rowAtB df (df.length - 2))) = true
    · rw [if_pos hb1] at ha
      obtain ⟨hu1, hu2⟩ := hupIff.mp hb1
      refine ⟨?_, ?_, ?_⟩
      · rw [ha]
        exact ⟨fun _ => ⟨hlen2, hu1, hu2⟩, fun _ => rfl⟩
      · rw [ha]
        constructor
        · intro h
          cases h
        · rintro ⟨-, hd1, -⟩
          exact absurd (specStack_exclusive _ hu1 hd1) id
      · rw [ha]
        constructor
        · intro h
          cases h
        · rintro ⟨hnu, -⟩
          exact absurd ⟨hlen2, hu1, hu2⟩ hnu
    · rw [if_neg hb1] at ha
      by_cases hb2 : (downStackB (rowAtB df (df.length - 1)) &&
          downStackB (rowAtB df (df.length - 2))) = true
      · rw [if_pos hb2] at ha
        obtain ⟨hd1, hd2⟩ := hdownIff.mp hb2
        refine ⟨?_, ?_, ?_⟩
        · rw [ha]
          constructor
          · intro h
            cases h
          · rintro ⟨-, hu1, -⟩
            exact absurd (specStack_exclusive _ hu1 hd1) id
        · rw [ha]
          exact ⟨fun _ => ⟨hlen2, hd1, hd2⟩, fun _ => rfl⟩
        · rw [ha]
          constructor
          · intro h
            cases h
          · rintro ⟨-, hnd⟩
            exact absurd ⟨hlen2, hd1, hd2⟩ hnd
      · rw [if_neg hb2] at ha
        refine ⟨?_, ?_, ?_⟩
        · rw [ha]
          constructor
          · intro h
            cases h
          · rintro ⟨-, hu1, hu2⟩
            exact absurd (hupIff.mpr ⟨hu1, hu2⟩) hb1
        · rw [ha]
          constructor
          · intro h
            cases h
          · rintro ⟨-, hd1, hd2⟩
            exact absurd (hdownIff.mpr ⟨hd1, hd2⟩) hb2
        · rw [ha]
          refine ⟨fun _ => ⟨?_, ?_⟩, fun _ => rfl⟩
          · rintro ⟨-, hu1, hu2⟩
            exact absurd (hupIff.mpr ⟨hu1, hu2⟩) hb1
          · rintro ⟨-, hd1, hd2⟩
            exact absurd (hdownIff.mpr ⟨hd1, hd2⟩) hb2

theorem gainAt_nonneg (closes : List ℚ) (i : ℕ) : 0 ≤ gainAt closes i := by
  unfold gainAt
  cases h : deltaAt closes i with
  | none => exact le_refl 0
  | some d =>
    dsimp only
    split_ifs with hd
    · exact le_of_lt hd
    · exact le_refl 0

theorem lossAt_nonneg (closes : List ℚ) (i : ℕ) : 0 ≤ lossAt closes i := by
  unfold lossAt
  cases h : deltaAt closes i with
  | none => exact le_refl 0
  | some d =>
    dsimp only
    split_ifs with hd
    · exact neg_nonneg.mpr (le_of_lt hd)
    · exact le_refl 0

theorem avgGain_nonneg (closes : List ℚ) (p i : ℕ) (aG : ℚ)
    (h : avgGainAt closes p i = some aG) : 0 ≤ aG := by
  unfold avgGainAt rollingMeanAt at h
  split_ifs at h
  injection h with h
  subst h
  apply div_nonneg
  · apply List.sum_nonneg
    intro x hx
    have hx2 : x ∈ gainList closes :=
      List.take_subset _ _ (List.drop_subset _ _ hx)
    obtain ⟨j, -, rfl⟩ := List.mem_map.mp hx2
    exact gainAt_nonneg closes j
  · exact Nat.cast_nonneg p

theorem avgLoss_nonneg (closes : List ℚ) (p i : ℕ) (aL : ℚ)
    (h : avgLossAt closes p i = some aL) : 0 ≤ aL := by
  unfold avgLossAt rollingMeanAt at h
  split_ifs at h
  injection h with h
  subst h
  apply div_nonneg
  · apply List.sum_nonneg
    intro x hx
    have hx2 : x ∈ lossList closes :=
      List.take_subset _ _ (List.drop_subset _ _ hx)
    obtain ⟨j, -, rfl⟩ := List.mem_map.mp hx2
    exact lossAt_nonneg closes j
  · exact Nat.cast_nonneg p

/-- C7: on a non-degenerate series (no full window with zero average loss),
every defined RSI value lies in the closed interval [0, 100]. -/
theorem rsi_defined_bounded (closes : List ℚ) (p i : ℕ) (x : ℚ)
    (hnd : ∀ j, j < closes.length → avgLossAt closes p j ≠ some 0)
    (hx : rsiAt closes p i = some x) : 0 ≤ x ∧ x ≤ 100 := by
  unfold rsiAt at hx
  cases hG : avgGainAt closes p i with
  | none =>
    rw [hG] at hx
    cases hx
  | some aG =>
    cases hL : avgLossAt closes p i with
    | none =>
      rw [hG, hL] at hx
      cases hx
    | some aL =>
      rw [hG, hL] at hx
      dsimp only at hx
      split_ifs at hx with h1 h2
      · injection hx with hx
        subst hx
        have hg0 : 0 ≤ aG := avgGain_nonneg closes p i aG hG
        have hl0 : 0 ≤ aL := avgLoss_nonneg closes p i aL hL
        have hlpos : 0 < aL := lt_of_le_of_ne hl0 (Ne.symm h1)
        have hrs : 0 ≤ aG / aL := div_nonneg hg0 hl0
        have h1rs : (1 : ℚ) ≤ 1 + aG / aL := by linarith
        have hq1 : 100 / (1 + aG / aL) ≤ 100 := div_le_self (by norm_num) h1rs
        have hq2 : 0 < 100 / (1 + aG / aL) := div_pos (by norm_num) (by linarith)
        constructor <;> linarith
      · injection hx with hx
        subst hx
        norm_num

/-- Witness for C7: a zigzag series whose every full window has a loss;
its RSI(5) at the last bar is exactly 40. -/
theorem rsi_defined_bounded_witness :
    (∀ j, j < zigzagCloses.length → avgLossAt zigzagCloses 5 j ≠ some 0) ∧
      rsiAt zigzagCloses 5 5 = some 40 ∧ 0 ≤ (40 : ℚ) ∧ (40 : ℚ) ≤ 100 :=
  ⟨by decide, by decide, rsi_defined_bounded zigzagCloses 5 5 40 (by decide) (by decide)⟩

/-- C4 counterexample: on eight constant candles, the average gain and average
loss of the 5-bar RSI window are zero and the rolling high-low ranges of KDJ
and Williams %R are zero, yet no epsilon is added anywhere: the division by
zero happens and RSI, RSV, K, J and %R at fully warmed-up indices are
non-finite (NaN), i.e. a degenerate value IS propagated out of the pipeline. -/
theorem indicator_unguarded_counterexample :
    avgLossAt (closesOf constCandles) 5 5 = some 0 ∧
    avgGainAt (closesOf constCandles) 5 5 = some 0 ∧
    rsiAt (closesOf constCandles) 5 5 = none ∧
    rsvAt constCandles 5 5 = none ∧
    wrAt constCandles 8 7 = none ∧
    kAt constCandles 5 8 7 = none ∧
    jAt constCandles 5 8 8 7 = none := by
  decide

/-- C4 amended: the RSI, KDJ and Williams %R denominators are NOT guarded.
Whenever both the average gain and the average loss of a window are zero, RSI
is undefined (0/0 = NaN); whenever the rolling high-low range is zero, the
KDJ seed RSV and the Williams %R value are undefined; and a zero average loss
with a nonzero average gain makes the float quotient infinite, so RSI
evaluates to exactly 100.  Degenerate values are produced and propagated. -/
theorem indicator_zero_denominator_degenerate (closes closes2 : List ℚ)
    (df : List Candle) (p p2 L w i i2 j k : ℕ) (m mw g : ℚ)
    (hG : avgGainAt closes p i = some 0) (hL : avgLossAt closes p i = some 0)
    (h1 : rollingMinAt L (lowsOf df) j = some m)
    (h2 : rollingMaxAt L (highsOf df) j = some m)
    (h3 : rollingMinAt w (lowsOf df) k = some mw)
    (h4 : rollingMaxAt w (highsOf df) k = some mw)
    (hG2 : avgGainAt closes2 p2 i2 = some g) (hg : g ≠ 0)
    (hL2 : avgLossAt closes2 p2 i2 = some 0) :
    rsiAt closes p i = none ∧ rsvAt df L j = none ∧ wrAt df w k = none ∧
      rsiAt closes2 p2 i2 = some 100 := by
  refine ⟨?_, ?_, ?_, ?_⟩
  · unfold rsiAt
    rw [hG, hL]
    simp
  · unfold rsvAt
    rw [h1, h2]
    simp
  · unfold wrAt
    rw [h4, h3]
    simp
  · unfold rsiAt
    rw [hG2, hL2]
    simp [hg]

/-- Witness for the amended C4: constant candles give NaN RSI/RSV/%R, a
strictly rising series gives the infinite-quotient RSI of exactly 100. -/
theorem indicator_zero_denominator_degenerate_witness :
    avgGainAt (closesOf constCandles) 5 5 = some 0 ∧
      avgGainAt risingCloses 5 5 = some 1 ∧
      avgLossAt risingCloses 5 5 = some 0 ∧
      (rsiAt (closesOf constCandles) 5 5 = none ∧
        rsvAt constCandles 5 5 = none ∧ wrAt constCandles 8 7 = none ∧
        rsiAt risingCloses 5 5 = some 100) :=
  ⟨by decide, by decide, by decide,
    indicator_zero_denominator_degenerate (closesOf constCandles) risingCloses
      constCandles 5 5 5 8 5 5 5 7 100 100 1
      (by decide) (by decide) (by decide) (by decide) (by decide) (by decide)
      (by decide) (by decide) (by decide)⟩

/-! Causality lemmas: every indicator value at index `i` only depends on the
first `i + 1` rows of the input series. -/

theorem closesOf_append (xs ys : List Candle) :
    closesOf (xs ++ ys) = closesOf xs ++ closesOf ys := List.map_append _ _ _

theorem highsOf_append (xs ys : List Candle) :
    highsOf (xs ++ ys) = highsOf xs ++ highsOf ys := List.map_append _ _ _

theorem lowsOf_append (xs ys : List Candle) :
    lowsOf (xs ++ ys) = lowsOf xs ++ lowsOf ys := List.map_append _ _ _

theorem winSlice_append (w i : ℕ) (xs ys : List ℚ) (h : i < xs.length) :
    winSlice w i (xs ++ ys) = winSlice w i xs := by
  unfold winSlice
  rw [List.take_append_of_le_length (by omega)]

theorem rollingMeanAt_append (w : ℕ) (xs ys : List ℚ) (i : ℕ) (h : i < xs.length) :
    rollingMeanAt w (xs ++ ys) i = rollingMeanAt w xs i := by
  unfold rollingMeanAt
  rw [winSlice_append w i xs ys h]

theorem rollingMinAt_append (w : ℕ) (xs ys : List ℚ) (i : ℕ) (h : i < xs.length) :
    rollingMinAt w (xs ++ ys) i = rollingMinAt w xs i := by
  unfold rollingMinAt
  rw [winSlice_append w i xs ys h]

theorem rollingMaxAt_append (w : ℕ) (xs ys : List ℚ) (i : ℕ) (h : i < xs.length) :
    rollingMaxAt w (xs ++ ys) i = rollingMaxAt w xs i := by
  unfold rollingMaxAt
  rw [winSlice_append w i xs ys h]

theorem ewmState_congr (a : ℚ) (l1 l2 : List F) :
    ∀ i : ℕ, (∀ j, j ≤ i → l1.getD j none = l2.getD j none) →
      ewmState a l1 i = ewmState a l2 i := by
  intro i
  induction i with
  | zero =>
    intro h
    unfold ewmState
    rw [h 0 (le_refl 0)]
  | succ n ih =>
    intro h
    unfold ewmState
    rw [ih fun j hj => h j (le_trans hj (Nat.le_succ n)), h (n + 1) (le_refl (n + 1))]

theorem ewmAt_congr (a : ℚ) (l1 l2 : List F) (i : ℕ)
    (h : ∀ j, j ≤ i → l1.getD j none = l2.getD j none) : ewmAt a l1 i = ewmAt a l2 i := by
  unfold ewmAt
  rw [ewmState_congr a l1 l2 i h]

theorem getD_map_range {α : Type} (f : ℕ → α) (d : α) (n j : ℕ) (hj : j < n) :
    ((List.range n).map f).getD j d = f j := by
  simp [List.getD_eq_getElem?_getD, List.getElem?_map, List.getElem?_range, hj]

theorem take_eq_of_getD_eq {α : Type} (d : α) (l1 l2 : List α) (k : ℕ)
    (hk1 : k ≤ l1.length) (hk2 : k ≤ l2.length)
    (h : ∀ j, j < k → l1.getD j d = l2.getD j d) : l1.take k = l2.take k := by
  apply List.ext_getElem?
  intro n
  by_cases hn : n < k
  · rw [List.getElem?_take_of_lt hn, List.getElem?_take_of_lt hn]
    have hn1 : n < l1.length := lt_of_lt_of_le hn hk1
    have hn2 : n < l2.length := lt_of_lt_of_le hn hk2
    have e := h n hn
    rw [List.getD_eq_getElem?_getD, List.getD_eq_getElem?_getD,
      List.getElem?_eq_getElem hn1, List.getElem?_eq_getElem hn2] at e
    simp only [Option.getD_some] at e
    rw [List.getElem?_eq_getElem hn1, List.getElem?_eq_getElem hn2, e]
  · rw [List.getElem?_eq_none, List.getElem?_eq_none]
    · rw [List.length_take]
      omega
    · rw [List.length_take]
      omega

theorem rollingMeanAt_congr (w : ℕ) (l1 l2 : List ℚ) (i : ℕ) (h1 : i < l1.length)
    (h2 : i < l2.length) (h : ∀ j, j ≤ i → l1.getD j 0 = l2.getD j 0) :
    rollingMeanAt w l1 i = rollingMeanAt w l2 i := by
  unfold rollingMeanAt winSlice
  rw [take_eq_of_getD_eq 0 l1 l2 (i + 1) (by omega) (by omega)
    fun j hj => h j (by omega)]

theorem emaC_append (S : ℕ) (xs ys : List Candle) (i : ℕ) (h : i < xs.length) :
    emaAt S (closesOf (xs ++ ys)) i = emaAt S (closesOf xs) i := by
  unfold emaAt
  apply ewmAt_congr
  intro j hj
  rw [closesOf_append, List.map_append]
  exact List.getD_append _ _ _ _ (by simp [closesOf]; omega)

theorem closes_getD_append (xs ys : List Candle) (i : ℕ) (h : i < xs.length) :
    (closesOf (xs ++ ys)).getD i 0 = (closesOf xs).getD i 0 := by
  rw [closesOf_append]
  exact List.getD_append _ _ _ _ (by simp [closesOf]; omega)

theorem maC_append (w : ℕ) (xs ys : List Candle) (i : ℕ) (h : i < xs.length) :
    rollingMeanAt w (closesOf (xs ++ ys)) i = rollingMeanAt w (closesOf xs) i := by
  rw [closesOf_append]
  exact rollingMeanAt_append w (closesOf xs) (closesOf ys) i (by simp [closesOf]; omega)

theorem deltaAt_append (xs ys : List ℚ) (i : ℕ) (h : i < xs.length) :
    deltaAt (xs ++ ys) i = deltaAt xs i := by
  unfold deltaAt
  split_ifs with h0
  · rfl
  · rw [List.getD_append _ _ _ _ h, List.getD_append _ _ _ _ (by omega)]

theorem gainAt_append (xs ys : List ℚ) (i : ℕ) (h : i < xs.length) :
    gainAt (xs ++ ys) i = gainAt xs i := by
  unfold gainAt
  rw [deltaAt_append xs ys i h]

theorem lossAt_append (xs ys : List ℚ) (i : ℕ) (h : i < xs.length) :
    lossAt (xs ++ ys) i = lossAt xs i := by
  unfold lossAt
  rw [deltaAt_append xs ys i h]

theorem avgGainAt_append (xs ys : List ℚ) (p i : ℕ) (h : i < xs.length) :
    avgGainAt (xs ++ ys) p i = avgGainAt xs p i := by
  unfold avgGainAt
  apply rollingMeanAt_congr
  · simp [gainList]
    omega
  · simp [gainList]
    omega
  · intro j hj
    have hjx : j < xs.length := lt_of_le_of_lt hj h
    unfold gainList
    rw [getD_map_range _ _ _ _ (by simp; omega), getD_map_range _ _ _ _ hjx]
    exact gainAt_append xs ys j hjx

theorem avgLossAt_append (xs ys : List ℚ) (p i : ℕ) (h : i < xs.length) :
    avgLossAt (xs ++ ys) p i = avgLossAt xs p i := by
  unfold avgLossAt
  apply rollingMeanAt_congr
  · simp [lossList]
    omega
  · simp [lossList]
    omega
  · intro j hj
    have hjx : j < xs.length := lt_of_le_of_lt hj h
    unfold lossList
    rw [getD_map_range _ _ _ _ (by simp; omega), getD_map_range _ _ _ _ hjx]
    exact lossAt_append xs ys j hjx

theorem rsiC_append (p : ℕ) (xs ys : List Candle) (i : ℕ) (h : i < xs.length) :
    rsiAt (closesOf (xs ++ ys)) p i = rsiAt (closesOf xs) p i := by
  unfold rsiAt
  rw [closesOf_append]
  rw [avgGainAt_append (closesOf xs) (closesOf ys) p i (by simp [closesOf]; omega),
    avgLossAt_append (closesOf xs) (closesOf ys) p i (by simp [closesOf]; omega)]

theorem rsvAt_append (xs ys : List Candle) (L i : ℕ) (h : i < xs.length) :
    rsvAt (xs ++ ys) L i = rsvAt xs L i := by
  unfold rsvAt
  rw [lowsOf_append, highsOf_append,
    rollingMinAt_append L (lowsOf xs) (lowsOf ys) i (by simp [lowsOf]; omega),
    rollingMaxAt_append L (highsOf xs) (highsOf ys) i (by simp [highsOf]; omega),
    closes_getD_append xs ys i h]

theorem wrAt_append (xs ys : List Candle) (p i : ℕ) (h : i < xs.length) :
    wrAt (xs ++ ys) p i = wrAt xs p i := by
  unfold wrAt
  rw [lowsOf_append, highsOf_append,
    rollingMinAt_append p (lowsOf xs) (lowsOf ys) i (by simp [lowsOf]; omega),
    rollingMaxAt_append p (highsOf xs) (highsOf ys) i (by simp [highsOf]; omega),
    closes_getD_append xs ys i h]

theorem kAt_append (xs ys : List Candle) (L ma1 i : ℕ) (h : i < xs.length) :
    kAt (xs ++ ys) L ma1 i = kAt xs L ma1 i := by
  unfold kAt
  apply ewmAt_congr
  intro j hj
  have hjx : j < xs.length := lt_of_le_of_lt hj h
  unfold rsvList
  rw [getD_map_range _ _ _ _ (by simp; omega), getD_map_range _ _ _ _ hjx]
  exact rsvAt_append xs ys L j hjx

theorem dAt_append (xs ys : List Candle) (L ma1 ma2 i : ℕ) (h : i < xs.length) :
    dAt (xs ++ ys) L ma1 ma2 i = dAt xs L ma1 ma2 i := by
  unfold dAt
  apply ewmAt_congr
  intro j hj
  have hjx : j < xs.length := lt_of_le_of_lt hj h
  unfold kList
  rw [getD_map_range _ _ _ _ (by simp; omega), getD_map_range _ _ _ _ hjx]
  exact kAt_append xs ys L ma1 j hjx

theorem jAt_append (xs ys : List Candle) (L ma1 ma2 i : ℕ) (h : i < xs.length) :
    jAt (xs ++ ys) L ma1 ma2 i = jAt xs L ma1 ma2 i := by
  unfold jAt
  rw [kAt_append xs ys L ma1 i h, dAt_append xs ys L ma1 ma2 i h]

theorem indicatorRowNAt_append (xs ys : List Candle) (i : ℕ) (h : i < xs.length) :
    indicatorRowNAt (xs ++ ys) i = indicatorRowNAt xs i := by
  unfold indicatorRowNAt
  rw [closes_getD_append xs ys i h,
    emaC_append 8 xs ys i h, emaC_append 13 xs ys i h, emaC_append 21 xs ys i h,
    emaC_append 50 xs ys i h, emaC_append 200 xs ys i h,
    maC_append 50 xs ys i h, maC_append 200 xs ys i h,
    kAt_append xs ys 5 8 i h, dAt_append xs ys 5 8 8 i h, jAt_append xs ys 5 8 8 i h,
    rsiC_append 5 xs ys i h, rsiC_append 13 xs ys i h, rsiC_append 21 xs ys i h,
    wrAt_append xs ys 8 i h, wrAt_append xs ys 13 i h, wrAt_append xs ys 50 i h,
    wrAt_append xs ys 200 i h]

theorem indicatorRowBAt_append (xs ys : List Candle) (i : ℕ) (h : i < xs.length) :
    indicatorRowBAt (xs ++ ys) i = indicatorRowBAt xs i := by
  unfold indicatorRowBAt
  rw [closes_getD_append xs ys i h,
    emaC_append 8 xs ys i h, emaC_append 13 xs ys i h, emaC_append 21 xs ys i h,
    emaC_append 50 xs ys i h, emaC_append 200 xs ys i h,
    maC_append 50 xs ys i h, maC_append 200 xs ys i h]

/-- C9: appending future bars never changes past indicator values: for every
index inside the original series, the whole indicator row (every EMA, MA, K,
D, J, RSI and Williams %R column) computed by `add_indicators` over the
extended series equals the one computed over the original series, in both
script variants. -/
theorem add_indicators_causal (xs ys : List Candle) (i : ℕ) (h : i < xs.length) :
    (add_indicatorsN (xs ++ ys)).getD i default = (add_indicatorsN xs).getD i default ∧
    (add_indicatorsB (xs ++ ys)).getD i default = (add_indicatorsB xs).getD i default := by
  constructor
  · unfold add_indicatorsN
    rw [getD_map_range _ _ _ _ (by simp; omega), getD_map_range _ _ _ _ h]
    exact indicatorRowNAt_append xs ys i h
  · unfold add_indicatorsB
    rw [getD_map_range _ _ _ _ (by simp; omega), getD_map_range _ _ _ _ h]
    exact indicatorRowBAt_append xs ys i h

/-- Witness for C9 at a concrete six-bar series extended by two extreme bars. -/
theorem add_indicators_causal_witness :
    5 < xsW.length ∧
      (add_indicatorsN (xsW ++ ysW)).getD 5 default = (add_indicatorsN xsW).getD 5 default :=
  ⟨by decide, (add_indicators_causal xsW ysW 5 (by decide)).1⟩
